import Mathlib

/-!
# Verification of the CA business scraper core (`src/app/scraper.py`)

This file gives a shallow embedding in Lean 4 of the extraction and
orchestration core of `scraper.py`, and proves (or refutes) the spec's
claims about it.

Modelling conventions:

* A Python `dict` is an insertion-ordered association list (`Dict` below)
  with the exact `dict` update semantics: assigning to an existing key
  overwrites in place, assigning a fresh key appends at the end.
* The DOM a page exposes to the locator calls is a `PageDom` snapshot:
  lists of `dt`/`dd` texts, table rows with typed cells, and labels.
  Element text reads are total at this level; provider-call failures
  (raised exceptions from Playwright calls) are modelled where a claim
  depends on them: by explicit failure flags in the navigation-action
  oracles and by `Except`-valued call results in the session model.
* `scrape_businesses` interacts with the browser only through provider
  calls whose results (values or raised exceptions) are chosen by the
  environment, so the session is embedded as a function of a `Behaviour`
  oracle giving each call's outcome, with explicit fuel bounding the
  unbounded `while True` loop (every claim is proved for all fuel).
-/

namespace CaBiz

/-! ## Python `dict` as an insertion-ordered association list -/

/-- A Python `dict` with `str` keys and values: entries in insertion order. -/
abbrev Dict := List (String × String)

/-- The keys of a dict, in insertion order. -/
def Dict.keys (d : Dict) : List String := d.map Prod.fst

/-- `d[k]` as an option: the value at the first entry whose key is `k`. -/
def Dict.find? : Dict → String → Option String
  | [], _ => none
  | (k', v) :: rest, k => if k' = k then some v else Dict.find? rest k

/-- `d[k] = v` in Python: overwrite in place if `k` is present, else append. -/
def Dict.insertPy (d : Dict) (k v : String) : Dict :=
  if (d.find? k).isSome then
    d.map (fun p => if p.1 = k then (k, v) else p)
  else
    d ++ [(k, v)]

/-- Building a dict by iterated assignment `d[k] = v` over a pair list:
the semantics of a Python dict comprehension / assignment loop. -/
def Dict.ofPairs (ps : List (String × String)) : Dict :=
  ps.foldl (fun acc p => acc.insertPy p.1 p.2) []

/-- `{**b, **d}`: start from `b` and assign every entry of `d` in order. -/
def Dict.mergePy (b d : Dict) : Dict :=
  d.foldl (fun acc p => acc.insertPy p.1 p.2) b

/-- A well-formed dict never repeats a key (true of every real Python dict). -/
def Dict.NodupKeys (d : Dict) : Prop := d.keys.Nodup

/-! ## Decimal rendering (for the `col_{i+1}` placeholder keys)

Python's `f"col_{i+1}"` renders `i+1` in decimal.  We embed the decimal
rendering via `Nat.digits`, which is provably injective. -/

/-- Standard decimal rendering of a natural number. -/
def natToDec (n : Nat) : String :=
  if n = 0 then "0" else String.mk (((Nat.digits 10 n).map Nat.digitChar).reverse)

/-- The placeholder column name `f"col_{i+1}"` for 0-based cell index `i`. -/
def colName (i : Nat) : String := "col_" ++ natToDec (i + 1)

/-- The placeholder key sequence `col_1 .. col_n`. -/
def colNames (n : Nat) : List String := (List.range n).map colName

/-! ## String helpers mirroring the Python string methods used -/

/-- Python `s.rstrip(":")`: drop every trailing colon. -/
def rstripColon (s : String) : String :=
  String.mk ((s.data.reverse.dropWhile (fun c => c = ':')).reverse)

/-- Python `s.strip()`: trim surrounding whitespace (computed on the
character list so that concrete instances evaluate). -/
def pyStrip (s : String) : String :=
  String.mk (((s.data.dropWhile Char.isWhitespace).reverse.dropWhile
    Char.isWhitespace).reverse)

/-! ## DOM snapshot model

One element per entry, in document order.  A cell element may match several
of the selectors `th`, `td`, `[role=cell]`, hence the three flags. -/

/-- A cell element of a table row. -/
structure Cell where
  isTh : Bool
  isTd : Bool
  isRole : Bool
  text : String
deriving DecidableEq, Inhabited

/-- A table-row element.  `hasAnchor` says whether `row.locator("a")` matches;
`anchorCountFails`, `linkClickOk`, `rowClickOk` give the outcomes of the
provider calls made inside the `try` block of `_open_row_detail`
(scraper.py lines 183-191). -/
structure TableRow where
  cells : List Cell
  hasAnchor : Bool
  anchorCountFails : Bool
  linkClickOk : Bool
  rowClickOk : Bool
deriving DecidableEq, Inhabited

/-- A `label` element: its text and the rendered text of its immediate next
sibling (`none` models a missing sibling or a failed read, which the
per-label `try` of strategy 3 swallows). -/
structure LabelElem where
  text : String
  sib : Option String
deriving DecidableEq, Inhabited

/-- The DOM as seen through the locator expressions the scraper uses. -/
structure PageDom where
  dts : List String
  dds : List String
  tbodyTrs : List TableRow
  allTrs : List TableRow
  roleRows : List TableRow
  labels : List LabelElem
deriving DecidableEq, Inhabited

/-- `tr.locator("th")`. -/
def TableRow.ths (tr : TableRow) : List Cell := tr.cells.filter (fun c => c.isTh)

/-- `tr.locator("td")`. -/
def TableRow.tds (tr : TableRow) : List Cell := tr.cells.filter (fun c => c.isTd)

/-- `tr.locator("[role=cell]")`. -/
def TableRow.roleCells (tr : TableRow) : List Cell := tr.cells.filter (fun c => c.isRole)

/-- `tr.locator("td,th")` (document order preserved). -/
def TableRow.tdth (tr : TableRow) : List Cell := tr.cells.filter (fun c => c.isTd || c.isTh)

/-- `_safe_text` (scraper.py lines 57-61): `el.inner_text().strip()`.  Text
reads are total at this level; a raising read is modelled at the
orchestration level, where its effect (an exception escaping the enclosing
extraction) is visible. -/
def safe_text (c : Cell) : String := pyStrip c.text

/-! ## Table Extractor (`_extract_table_rows`, scraper.py lines 75-95) -/

/-- The per-`tr` body of the row loop: `none` means the row is skipped
(header repeat, no cells, or all cells blank), `some row` its cell texts. -/
def acceptRow (tr : TableRow) : Option (List String) :=
  if tr.ths.length > 0 ∧ tr.tds.length = 0 then none
  else
    let cells := if tr.tds.length = 0 then tr.roleCells else tr.tds
    if cells.length = 0 then none
    else
      let row := cells.map safe_text
      if row.any (fun c => pyStrip c ≠ "") then some row else none

/-- All accepted rows of one row-collection convention. -/
def extractRowsFrom (trs : List TableRow) : List (List String) :=
  trs.filterMap acceptRow

/-- The three row-collection conventions, in the order tried:
`table tbody tr`, `table tr`, `[role=rowgroup] [role=row]`. -/
def extractConventions (d : PageDom) : List (List TableRow) :=
  [d.tbodyTrs, d.allTrs, d.roleRows]

/-- The `for sel in [...]` loop: skip a convention matching nothing
(`continue` on count 0), stop at the first convention contributing an
accepted row (`if rows: break`). -/
def extractLoop : List (List TableRow) → List (List String)
  | [] => []
  | trs :: rest =>
    if trs.length = 0 then extractLoop rest
    else
      let rows := extractRowsFrom trs
      if rows = [] then extractLoop rest else rows

/-- `_extract_table_rows`. -/
def _extract_table_rows (d : PageDom) : List (List String) :=
  extractLoop (extractConventions d)

/-! ## Detail Collector (`_collect_detail_fields`, scraper.py lines 140-172) -/

/-- Strategy 1 of `_collect_detail_fields` (lines 142-149): pair `dt`
terms with `dd` definitions by position, keys trimmed then stripped of
trailing colons, blank keys dropped; runs over an initially empty `data`. -/
def detailStrategy1 (d : PageDom) : Dict :=
  (List.range d.dts.length).foldl (fun acc i =>
    let key := rstripColon (pyStrip (d.dts.getD i ""))
    let val := pyStrip (d.dds.getD i "")
    if key ≠ "" then acc.insertPy key val else acc) []

/-- The strategy-2 loop body (lines 150-158), writing into the running
`data` accumulator: for each `table tr` with at least two `td,th` cells,
first cell is the key, second the value, skipping rows lacking a non-blank
key or value. -/
def detailStrategy2From (d : PageDom) (acc0 : Dict) : Dict :=
  d.allTrs.foldl (fun acc tr =>
    let cells := tr.tdth
    if cells.length ≥ 2 then
      let k := rstripColon (pyStrip (cells.getD 0 default).text)
      let v := pyStrip (cells.getD 1 default).text
      if k ≠ "" ∧ v ≠ "" then acc.insertPy k v else acc
    else acc) acc0

/-- The strategy-3 loop body (lines 159-171), writing into the running
`data` accumulator: for each of the first 50 `label` elements, key is the
label text, value the next sibling's rendered text; labels with a missing
sibling, blank key or blank value are skipped (the source swallows
per-label failures). -/
def detailStrategy3From (d : PageDom) (acc0 : Dict) : Dict :=
  (d.labels.take 50).foldl (fun acc l =>
    match l.sib with
    | none => acc
    | some vRaw =>
      let k := rstripColon (pyStrip l.text)
      let v := pyStrip vRaw
      if k ≠ "" ∧ v ≠ "" then acc.insertPy k v else acc) acc0

/-- Strategy 2 run by itself (on an empty accumulator), as the spec
describes it. -/
def detailStrategy2 (d : PageDom) : Dict := detailStrategy2From d []

/-- Strategy 3 run by itself (on an empty accumulator), as the spec
describes it. -/
def detailStrategy3 (d : PageDom) : Dict := detailStrategy3From d []

/-- `_collect_detail_fields`, translated with the source's `data`
threading: strategy 1 guarded by `dts.count() > 0 and
dds.count() >= dts.count()`, strategies 2 and 3 each guarded by
`if not data` and applied to the running `data`. -/
def _collect_detail_fields (d : PageDom) : Dict :=
  let data : Dict :=
    if d.dts.length > 0 ∧ d.dds.length ≥ d.dts.length then detailStrategy1 d else []
  let data2 : Dict := if data = [] then detailStrategy2From d data else data
  let data3 : Dict := if data2 = [] then detailStrategy3From d data2 else data2
  data3

/-! ## Navigation Controller -/

/-- Failure flags for the three uncaught `rows.count()` provider calls of
`_open_row_detail` (line 178), one per row-collection convention. -/
structure OpenOracle where
  tbodyCountFails : Bool
  allCountFails : Bool
  roleCountFails : Bool
deriving DecidableEq, Inhabited

/-- The oracle in which every count query succeeds. -/
def noOpenFail : OpenOracle := ⟨false, false, false⟩

/-- The `for sel in [...]` loop of `_open_row_detail` (lines 176-192):
per convention, a raising count propagates; a convention matching nothing
is skipped; an out-of-range index returns `False`; otherwise the row is
clicked (anchor preferred) inside a `try` that turns any failure into
`False`. -/
def openLoop (i : Nat) : List (List TableRow × Bool) → Except Unit Bool
  | [] => .ok false
  | (trs, cf) :: rest =>
    if cf then .error ()
    else if trs.length = 0 then openLoop i rest
    else if i ≥ trs.length then .ok false
    else
      let tr := trs.getD i default
      if tr.anchorCountFails then .ok false
      else if tr.hasAnchor then .ok tr.linkClickOk
      else .ok tr.rowClickOk

/-- `_open_row_detail`. -/
def _open_row_detail (d : PageDom) (o : OpenOracle) (i : Nat) : Except Unit Bool :=
  openLoop i
    [(d.tbodyTrs, o.tbodyCountFails), (d.allTrs, o.allCountFails),
     (d.roleRows, o.roleCountFails)]

/-- The row-selection part of `_open_row_detail` (lines 176-182): the `tr`
element the action locates and clicks, `none` when it returns `False`
without clicking. -/
def openTargetLoop (i : Nat) : List (List TableRow) → Option TableRow
  | [] => none
  | trs :: rest =>
    if trs.length = 0 then openTargetLoop i rest
    else if i ≥ trs.length then none
    else trs[i]?

/-- The table row targeted by `_open_row_detail` at index `i`. -/
def _open_row_detail_target (d : PageDom) (i : Nat) : Option TableRow :=
  openTargetLoop i [d.tbodyTrs, d.allTrs, d.roleRows]

/-- The first row-collection convention matching at least one element:
the row list `_open_row_detail` indexes into. -/
def rowsForOpen (d : PageDom) : List TableRow :=
  if d.tbodyTrs.length ≠ 0 then d.tbodyTrs
  else if d.allTrs.length ≠ 0 then d.allTrs
  else d.roleRows

/-- The cell group `_extract_table_rows` reads for a row: its `td` cells,
falling back to its `[role=cell]` cells. -/
def rowCells (tr : TableRow) : List Cell :=
  if tr.tds.length = 0 then tr.roleCells else tr.tds

/-- The cell texts `_extract_table_rows` produces for an accepted row. -/
def rowTexts (tr : TableRow) : List String :=
  (rowCells tr).map safe_text

/-- Provider-call outcomes for one run of `_click_search`
(scraper.py lines 98-137): the one uncaught count query (line 101), the
three fill attempts, the three click attempts and the final Enter press,
each of whose failures the source catches. -/
structure SearchOracle where
  inputsCount : Except Unit Nat
  fill1Ok : Bool
  fill2Ok : Bool
  fill3Ok : Bool
  click1Ok : Bool
  click2Ok : Bool
  click3Ok : Bool
  enterOk : Bool
deriving Inhabited

/-- `_click_search`: returns `None` in the source (no success flag), so the
embedding returns `Unit`; only the count query of line 101 can raise. -/
def _click_search (o : SearchOracle) : Except Unit Unit :=
  match o.inputsCount with
  | .error e => .error e
  | .ok n =>
    let filled1 := decide (n > 0) && o.fill1Ok
    let filled2 := filled1 || o.fill2Ok
    let _filled3 := filled2 || o.fill3Ok
    let clicked := o.click1Ok || o.click2Ok || o.click3Ok
    let _enterAttempted := !clicked
    .ok ()

/-- Provider-call outcomes for one pagination selector of `_click_next`:
its `el.count()` result (uncaught, line 205) and whether the guarded click
succeeds. -/
structure NextSel where
  count : Except Unit Nat
  clickOk : Bool
deriving Inhabited

/-- The selector loop of `_click_next` (lines 196-210): a raising count
propagates, a failed click falls through to the next selector; when the
loop exhausts, the best-effort PageDown fallback is swallowed and `False`
is reported (lines 211-216). -/
def clickNextLoop : List NextSel → Except Unit Bool
  | [] => .ok false
  | s :: rest =>
    match s.count with
    | .error e => .error e
    | .ok n =>
      if n > 0 then
        if s.clickOk then .ok true else clickNextLoop rest
      else clickNextLoop rest

/-- `_click_next`, parameterised by the six selector outcomes and the
fallback key-press outcome (which the source swallows either way). -/
def _click_next (sels : List NextSel) (_pageDownOk : Bool) : Except Unit Bool :=
  clickNextLoop sels

/-! ## BaseRecord construction (scraper.py lines 250-255) -/

/-- The per-row dict build of `scrape_businesses`: header labels as keys
when the row length matches a non-empty header sequence, else positional
`col_{i+1}` placeholders. -/
def buildBase (table_headers : List String) (r : List String) : Dict :=
  if table_headers ≠ [] ∧ r.length = table_headers.length then
    Dict.ofPairs (table_headers.zip r)
  else
    Dict.ofPairs ((List.range r.length).map (fun i => (colName i, r.getD i "")))

/-! ## Scrape Orchestrator (`scrape_businesses`, scraper.py lines 219-296)

The orchestrator sees the browser only through provider calls; the DOM
after each navigation is whatever the environment produces.  A `Behaviour`
therefore records each call's outcome: `Except` results for the calls the
source leaves uncaught, plain values for calls whose failure the source
catches.  The unbounded `while True` loop is run on explicit fuel; every
theorem below holds for all fuel. -/

/-- Outcomes of the provider calls made while processing one row of the
current page (loop body, lines 256-288). -/
structure RowStep where
  /-- The detail-open attempt under `expect_navigation` succeeded
  (lines 260-263); `false` covers both a `False` return of
  `_open_row_detail` and any raise, including the navigation timeout. -/
  openOk : Bool
  /-- Result of `_collect_detail_fields` on the opened detail view
  (line 270): its pairs, or `.error` when the collection raised
  (caught at line 271, line 272 then uses `{}`). -/
  collected : Except Unit (List (String × String))
  /-- `page.go_back` plus the table wait succeeded (lines 277-278). -/
  backOk : Bool
  /-- The recovery sequence (re-goto, re-search, wait, replay pagination,
  lines 281-286) ran without raising. -/
  recoverOk : Bool

/-- Outcomes of the provider calls made for one visit of a results page. -/
structure PageStep where
  /-- Result of `_extract_table_rows` (line 246): the extracted rows, or
  `.error` when one of its uncaught count or text-read calls raised. -/
  rows : Except Unit (List (List String))
  /-- Row-level outcomes, indexed by position on the page. -/
  rowStep : Nat → RowStep
  /-- Result of `_click_next` (line 291): its flag, or `.error` when one of
  its uncaught count calls raised. -/
  next : Except Unit Bool

/-- One full provider behaviour for a scrape session. -/
structure Behaviour where
  /-- Playwright start-up and `chromium.launch` succeed (lines 25-34). -/
  launchOk : Bool
  /-- `context.new_page()` succeeds (line 222). -/
  newPageOk : Bool
  /-- `page.goto(SEARCH_URL, ...)` succeeds (line 224, uncaught). -/
  gotoOk : Bool
  /-- The initial `_click_search` returns without raising (line 234; only
  its count query of line 101 can raise). -/
  searchOk : Bool
  /-- The header sequence after the retried header-extraction phase
  (lines 235-242; every failure inside it is caught, so the phase always
  completes with some value). -/
  headers : List String
  /-- Per-page-visit outcomes. -/
  pages : Nat → PageStep
  /-- `context.close()` / `browser.close()` in the `finally` block succeed
  (lines 52-54). -/
  closeOk : Bool

/-- Result of the per-page row loop: `cont` when the `for` loop ran to
completion (or broke on the record cap), `halt` when the recovery path
failed and line 288 returned from `scrape_businesses` directly.  The
source returns only `results` at line 288; the model also carries the
final `fetched` for the invariant statements. -/
inductive RowsOut where
  | cont (results : List Dict) (fetched : Nat)
  | halt (results : List Dict) (fetched : Nat)
deriving DecidableEq

/-- The result accumulator carried by a `RowsOut`. -/
def RowsOut.resultsOf : RowsOut → List Dict
  | .cont r _ => r
  | .halt r _ => r

/-- The `fetched` counter carried by a `RowsOut`. -/
def RowsOut.fetchedOf : RowsOut → Nat
  | .cont _ f => f
  | .halt _ f => f

/-- The detail dict used for a row: the pairs `_collect_detail_fields`
produced, assembled by its `data[key] = val` assignments, or `{}` when the
collection raised (lines 268-272). -/
def detailsOf (s : RowStep) : Dict :=
  match s.collected with
  | .ok ps => Dict.ofPairs ps
  | .error _ => []

/-- The `for idx_on_page, base in enumerate(page_dicts)` loop
(lines 256-288), one `RowStep` consumed per row index. -/
def processRows (steps : Nat → RowStep) (cap : Nat) :
    List Dict → Nat → List Dict → Nat → RowsOut
  | [], _, results, fetched => .cont results fetched
  | base :: rest, k, results, fetched =>
    if fetched ≥ cap then .cont results fetched
    else
      let s := steps k
      if !s.openOk then
        processRows steps cap rest (k + 1) (results ++ [base]) (fetched + 1)
      else
        let merged := Dict.mergePy base (detailsOf s)
        let results' := results ++ [merged]
        let fetched' := fetched + 1
        if s.backOk then processRows steps cap rest (k + 1) results' fetched'
        else if s.recoverOk then processRows steps cap rest (k + 1) results' fetched'
        else .halt results' fetched'

/-- The `while True` loop (lines 245-295).  `t` counts page visits (it
selects the current page's provider outcomes), `page_index` is the
source's 1-based `page_index` counter. -/
def scrapeLoop (pages : Nat → PageStep) (headers : List String) (cap : Nat) :
    Nat → List Dict → Nat → Nat → Nat → Except Unit (List Dict × List String)
  | _, results, _, _, 0 => .ok (results, headers)
  | t, results, fetched, page_index, fuel + 1 =>
    match (pages t).rows with
    | .error e => .error e
    | .ok rows_2d =>
      if rows_2d = [] then .ok (results, headers)
      else
        let page_dicts := rows_2d.map (buildBase headers)
        match processRows (pages t).rowStep cap page_dicts 0 results fetched with
        | .halt results' _ => .ok (results', headers)
        | .cont results' fetched' =>
          if fetched' ≥ cap then .ok (results', headers)
          else
            match (pages t).next with
            | .error e => .error e
            | .ok moved =>
              if !moved then .ok (results', headers)
              else scrapeLoop pages headers cap (t + 1) results' fetched' (page_index + 1) fuel

/-- `scrape_businesses`: browser/context acquisition, initial navigation,
consent dismissal (fully caught, hence absent), initial search, header
phase, then the page loop; the `finally` close runs on every path and its
failure propagates. -/
def scrape_businesses (b : Behaviour) (max_records : Nat) (fuel : Nat) :
    Except Unit (List Dict × List String) :=
  if !b.launchOk then .error ()
  else
    let body : Except Unit (List Dict × List String) :=
      if !b.newPageOk then .error ()
      else if !b.gotoOk then .error ()
      else if !b.searchOk then .error ()
      else scrapeLoop b.pages b.headers max_records 0 [] 0 1 fuel
    if b.closeOk then body else .error ()

/-! ## Concrete instances used in counterexamples and witnesses -/

/-- A table row whose only cell is a blank `td`: the extractor discards it. -/
def blankRow : TableRow := ⟨[⟨false, true, false, " "⟩], false, false, true, true⟩

/-- A table row with one non-blank `td` cell. -/
def goodRow : TableRow := ⟨[⟨false, true, false, "x"⟩], false, false, true, true⟩

/-- A page whose `tbody` has a blank first row: extraction skips row 0, so
extracted index 0 comes from the second `tr` while `_open_row_detail 0`
clicks the first. -/
def dEx : PageDom := ⟨[], [], [blankRow, goodRow], [], [], []⟩

/-- A page whose `tbody` rows are all accepted by the extractor. -/
def dGoodOnly : PageDom := ⟨[], [], [goodRow], [], [], []⟩

/-- A row step in which every provider call succeeds. -/
def trivialRowStep : RowStep := ⟨true, .ok [], true, true⟩

/-- A page visit with no rows and no next page, all calls succeeding. -/
def trivialPage : PageStep := ⟨.ok [], fun _ => trivialRowStep, .ok false⟩

/-- A provider behaviour in which every call succeeds (and finds nothing). -/
def okBehaviour : Behaviour := ⟨true, true, true, true, [], fun _ => trivialPage, true⟩

/-- A behaviour identical to `okBehaviour` except that the initial
`page.goto` call raises (for instance a navigation timeout). -/
def gotoFailBehaviour : Behaviour := ⟨true, true, false, true, [], fun _ => trivialPage, true⟩

/-- A row step whose detail-open succeeds, whose back-navigation fails,
and whose recovery sequence succeeds. -/
def recoveredRowStep : RowStep := ⟨true, .ok [("Entity Number", "C1234567")], false, true⟩

/-! # Lemma layer -/

/-! ## Dict lemmas -/

theorem Dict.find?_isSome_iff (d : Dict) (k : String) :
    (Dict.find? d k).isSome ↔ k ∈ Dict.keys d := by
  induction d with
  | nil => simp [Dict.find?, Dict.keys]
  | cons p rest ih =>
    obtain ⟨k', v⟩ := p
    by_cases h : k' = k
    · subst h
      simp [Dict.find?, Dict.keys]
    · simp [Dict.find?, Dict.keys, h, ih, Ne.symm h]

theorem Dict.find?_eq_none_iff (d : Dict) (k : String) :
    Dict.find? d k = none ↔ k ∉ Dict.keys d := by
  rw [← Dict.find?_isSome_iff, Option.not_isSome_iff_eq_none]

theorem Dict.keys_map_update (d : Dict) (k v : String) :
    Dict.keys (d.map (fun p => if p.1 = k then (k, v) else p)) = Dict.keys d := by
  induction d with
  | nil => rfl
  | cons p rest ih =>
    by_cases h : p.1 = k
    · simp [Dict.keys, h] at ih ⊢
      exact ih
    · simp [Dict.keys, h] at ih ⊢
      exact ih

theorem Dict.keys_insertPy_mem (d : Dict) (k v : String) (h : (Dict.find? d k).isSome) :
    Dict.keys (Dict.insertPy d k v) = Dict.keys d := by
  unfold Dict.insertPy
  rw [if_pos h]
  exact Dict.keys_map_update d k v

theorem Dict.keys_insertPy_not_mem (d : Dict) (k v : String)
    (h : ¬(Dict.find? d k).isSome) :
    Dict.keys (Dict.insertPy d k v) = Dict.keys d ++ [k] := by
  unfold Dict.insertPy
  rw [if_neg h]
  simp [Dict.keys]

theorem Dict.insertPy_not_mem (d : Dict) (k v : String) (h : Dict.find? d k = none) :
    Dict.insertPy d k v = d ++ [(k, v)] := by
  unfold Dict.insertPy
  simp [h]

theorem Dict.find?_map_update_self (d : Dict) (k v : String)
    (h : (Dict.find? d k).isSome) :
    Dict.find? (d.map (fun p => if p.1 = k then (k, v) else p)) k = some v := by
  induction d with
  | nil => simp [Dict.find?] at h
  | cons p rest ih =>
    obtain ⟨a, b⟩ := p
    have hhead : (if (a, b).1 = k then (k, v) else (a, b))
        = if a = k then (k, v) else (a, b) := rfl
    rw [List.map_cons, hhead]
    by_cases ha : a = k
    · rw [if_pos ha]
      simp [Dict.find?]
    · rw [if_neg ha]
      simp [Dict.find?, ha] at h ⊢
      exact ih h

theorem Dict.find?_append_of_none (d d2 : Dict) (k : String)
    (h : Dict.find? d k = none) :
    Dict.find? (d ++ d2) k = Dict.find? d2 k := by
  induction d with
  | nil => rfl
  | cons p rest ih =>
    obtain ⟨k', v'⟩ := p
    by_cases hp : k' = k
    · simp [Dict.find?, hp] at h
    · simp [Dict.find?, hp] at h ⊢
      exact ih h

theorem Dict.find?_insertPy_self (d : Dict) (k v : String) :
    Dict.find? (Dict.insertPy d k v) k = some v := by
  unfold Dict.insertPy
  by_cases h : (Dict.find? d k).isSome
  · rw [if_pos h]
    exact Dict.find?_map_update_self d k v h
  · rw [if_neg h]
    rw [Option.not_isSome_iff_eq_none] at h
    rw [Dict.find?_append_of_none d _ k h]
    simp [Dict.find?]

theorem Dict.find?_map_update_ne (d : Dict) (k v k' : String) (h : k' ≠ k) :
    Dict.find? (d.map (fun p => if p.1 = k then (k, v) else p)) k' = Dict.find? d k' := by
  induction d with
  | nil => rfl
  | cons p rest ih =>
    obtain ⟨a, b⟩ := p
    have hhead : (if (a, b).1 = k then (k, v) else (a, b))
        = if a = k then (k, v) else (a, b) := rfl
    rw [List.map_cons, hhead]
    by_cases ha : a = k
    · rw [if_pos ha]
      have hak : a ≠ k' := by
        rw [ha]
        exact Ne.symm h
      simp [Dict.find?, Ne.symm h, hak, ih]
    · rw [if_neg ha]
      by_cases ha' : a = k'
      · simp [Dict.find?, ha']
      · simp [Dict.find?, ha', ih]

theorem Dict.find?_append_singleton_ne (d : Dict) (k v k' : String) (h : k' ≠ k) :
    Dict.find? (d ++ [(k, v)]) k' = Dict.find? d k' := by
  induction d with
  | nil => simp [Dict.find?, Ne.symm h]
  | cons p rest ih =>
    obtain ⟨a, b⟩ := p
    by_cases ha' : a = k'
    · simp [Dict.find?, ha']
    · simp [Dict.find?, ha', ih]

theorem Dict.find?_insertPy_ne (d : Dict) (k v k' : String) (h : k' ≠ k) :
    Dict.find? (Dict.insertPy d k v) k' = Dict.find? d k' := by
  unfold Dict.insertPy
  by_cases hs : (Dict.find? d k).isSome
  · rw [if_pos hs]
    exact Dict.find?_map_update_ne d k v k' h
  · rw [if_neg hs]
    exact Dict.find?_append_singleton_ne d k v k' h

theorem Dict.nodupKeys_insertPy (d : Dict) (k v : String) (h : Dict.NodupKeys d) :
    Dict.NodupKeys (Dict.insertPy d k v) := by
  by_cases hs : (Dict.find? d k).isSome
  · rw [Dict.NodupKeys, Dict.keys_insertPy_mem d k v hs]
    exact h
  · rw [Dict.NodupKeys, Dict.keys_insertPy_not_mem d k v hs]
    refine List.Nodup.append h (List.nodup_singleton k) ?_
    intro a ha hak
    rw [List.mem_singleton] at hak
    subst hak
    rw [Dict.find?_isSome_iff] at hs
    exact hs ha

theorem Dict.nodupKeys_foldl_insertPy (ps : List (String × String)) (acc : Dict)
    (h : Dict.NodupKeys acc) :
    Dict.NodupKeys (ps.foldl (fun a p => a.insertPy p.1 p.2) acc) := by
  induction ps generalizing acc with
  | nil => exact h
  | cons p rest ih => exact ih _ (Dict.nodupKeys_insertPy acc p.1 p.2 h)

theorem Dict.nodupKeys_ofPairs (ps : List (String × String)) :
    Dict.NodupKeys (Dict.ofPairs ps) :=
  Dict.nodupKeys_foldl_insertPy ps [] List.nodup_nil

theorem Dict.nodupKeys_mergePy (b d : Dict) (h : Dict.NodupKeys b) :
    Dict.NodupKeys (Dict.mergePy b d) :=
  Dict.nodupKeys_foldl_insertPy d b h

theorem Dict.find?_mergePy_not_mem (B D : Dict) (k : String) (h : k ∉ Dict.keys D) :
    Dict.find? (Dict.mergePy B D) k = Dict.find? B k := by
  induction D generalizing B with
  | nil => rfl
  | cons p rest ih =>
    obtain ⟨k', v⟩ := p
    simp only [Dict.keys, List.map_cons, List.mem_cons] at h
    push_neg at h
    have step : Dict.mergePy B ((k', v) :: rest) = Dict.mergePy (B.insertPy k' v) rest := rfl
    rw [step, ih (B.insertPy k' v) h.2, Dict.find?_insertPy_ne B k' v k h.1]

theorem Dict.find?_mergePy_mem (B D : Dict) (k : String) (hD : Dict.NodupKeys D)
    (h : k ∈ Dict.keys D) :
    Dict.find? (Dict.mergePy B D) k = Dict.find? D k := by
  induction D generalizing B with
  | nil => simp [Dict.keys] at h
  | cons p rest ih =>
    obtain ⟨k', v⟩ := p
    have step : Dict.mergePy B ((k', v) :: rest) = Dict.mergePy (B.insertPy k' v) rest := rfl
    rw [step]
    by_cases hk : k' = k
    · subst hk
      have hrest : k' ∉ Dict.keys rest := by
        have := hD
        rw [Dict.NodupKeys, Dict.keys, List.map_cons] at this
        exact (List.nodup_cons.mp this).1
      rw [Dict.find?_mergePy_not_mem _ rest k' hrest, Dict.find?_insertPy_self]
      simp [Dict.find?]
    · have hmem : k ∈ Dict.keys rest := by
        simp only [Dict.keys, List.map_cons, List.mem_cons] at h
        rcases h with h | h
        · exact absurd h.symm hk
        · exact h
      have hDrest : Dict.NodupKeys rest := by
        rw [Dict.NodupKeys, Dict.keys, List.map_cons] at hD
        exact (List.nodup_cons.mp hD).2
      rw [ih (B.insertPy k' v) hDrest hmem, Dict.find?]
      rw [if_neg hk]

theorem Dict.mem_keys_mergePy (B D : Dict) (k : String)
    (h : k ∈ Dict.keys (Dict.mergePy B D)) :
    k ∈ Dict.keys B ∨ k ∈ Dict.keys D := by
  induction D generalizing B with
  | nil => exact Or.inl h
  | cons p rest ih =>
    obtain ⟨k', v⟩ := p
    have step : Dict.mergePy B ((k', v) :: rest) = Dict.mergePy (B.insertPy k' v) rest := rfl
    rw [step] at h
    rcases ih (B.insertPy k' v) h with h' | h'
    · by_cases hs : (Dict.find? B k').isSome
      · rw [Dict.keys_insertPy_mem B k' v hs] at h'
        exact Or.inl h'
      · rw [Dict.keys_insertPy_not_mem B k' v hs] at h'
        rcases List.mem_append.mp h' with h'' | h''
        · exact Or.inl h''
        · rw [List.mem_singleton] at h''
          subst h''
          right
          simp [Dict.keys]
    · right
      simp [Dict.keys]
      right
      simpa [Dict.keys] using h'

theorem Dict.foldl_insertPy_eq_append (ps : List (String × String)) (acc : Dict)
    (hn : (Dict.keys ps).Nodup) (hd : ∀ k ∈ Dict.keys ps, k ∉ Dict.keys acc) :
    ps.foldl (fun a p => a.insertPy p.1 p.2) acc = acc ++ ps := by
  induction ps generalizing acc with
  | nil => simp
  | cons p rest ih =>
    obtain ⟨k, v⟩ := p
    have hk : k ∉ Dict.keys acc := hd k (by simp [Dict.keys])
    have hins : acc.insertPy k v = acc ++ [(k, v)] :=
      Dict.insertPy_not_mem acc k v ((Dict.find?_eq_none_iff acc k).mpr hk)
    have hn' : (Dict.keys rest).Nodup := by
      rw [Dict.keys, List.map_cons, List.nodup_cons] at hn
      exact hn.2
    have hknotrest : k ∉ Dict.keys rest := by
      rw [Dict.keys, List.map_cons, List.nodup_cons] at hn
      exact hn.1
    have hd' : ∀ a ∈ Dict.keys rest, a ∉ Dict.keys (acc ++ [(k, v)]) := by
      intro a ha
      have h1 : a ∉ Dict.keys acc := by
        refine hd a ?_
        rw [Dict.keys, List.map_cons]
        exact List.mem_cons_of_mem _ ha
      intro hmem
      rw [Dict.keys, List.map_append] at hmem
      rcases List.mem_append.mp hmem with h2 | h2
      · exact h1 h2
      · simp at h2
        subst h2
        exact hknotrest ha
    have step : ((k, v) :: rest).foldl (fun a p => a.insertPy p.1 p.2) acc
        = rest.foldl (fun a p => a.insertPy p.1 p.2) (acc.insertPy k v) := rfl
    rw [step, hins, ih (acc ++ [(k, v)]) hn' hd']
    simp

theorem Dict.ofPairs_eq_self (ps : List (String × String))
    (hn : (Dict.keys ps).Nodup) : Dict.ofPairs ps = ps := by
  unfold Dict.ofPairs
  rw [Dict.foldl_insertPy_eq_append ps [] hn (by simp [Dict.keys])]
  simp

/-! ## Injectivity of the decimal rendering and of `colName` -/

theorem digitChar_injOn : ∀ a < 10, ∀ b < 10, Nat.digitChar a = Nat.digitChar b → a = b := by
  decide

theorem map_digitChar_injOn :
    ∀ (l1 l2 : List Nat), (∀ x ∈ l1, x < 10) → (∀ x ∈ l2, x < 10) →
      l1.map Nat.digitChar = l2.map Nat.digitChar → l1 = l2
  | [], [], _, _, _ => rfl
  | [], _ :: _, _, _, h => by simp at h
  | _ :: _, [], _, _, h => by simp at h
  | a :: t, b :: t2, h1, h2, h => by
    simp only [List.map_cons, List.cons.injEq] at h
    have ha : a = b := digitChar_injOn a (h1 a (by simp)) b (h2 b (by simp)) h.1
    have ht : t = t2 :=
      map_digitChar_injOn t t2 (fun x hx => h1 x (by simp [hx]))
        (fun x hx => h2 x (by simp [hx])) h.2
    rw [ha, ht]

theorem string_mk_inj (l1 l2 : List Char) (h : String.mk l1 = String.mk l2) : l1 = l2 := by
  injection h

theorem natToDec_eq_zero_str (n : Nat) (h : natToDec n = "0") : n = 0 := by
  by_contra hn
  unfold natToDec at h
  rw [if_neg hn] at h
  have hlist : ((Nat.digits 10 n).map Nat.digitChar).reverse = ['0'] :=
    string_mk_inj _ _ h
  have hmap : (Nat.digits 10 n).map Nat.digitChar = ['0'] := by
    have := congrArg List.reverse hlist
    simpa using this
  have hdig : Nat.digits 10 n = [0] := by
    refine map_digitChar_injOn _ [0] (fun x hx => Nat.digits_lt_base (by norm_num) hx)
      ?_ ?_
    · intro x hx
      simp at hx
      omega
    · simpa using hmap
  have hofd := Nat.ofDigits_digits 10 n
  rw [hdig] at hofd
  simp [Nat.ofDigits] at hofd
  exact hn hofd.symm

theorem natToDec_injective : Function.Injective natToDec := by
  intro m n h
  by_cases hm : m = 0
  · subst hm
    have : natToDec n = "0" := by
      rw [← h]
      rfl
    exact (natToDec_eq_zero_str n this).symm
  · by_cases hn : n = 0
    · subst hn
      have : natToDec m = "0" := by
        rw [h]
        rfl
      exact natToDec_eq_zero_str m this
    · unfold natToDec at h
      rw [if_neg hm, if_neg hn] at h
      have hlist := string_mk_inj _ _ h
      have hmap := List.reverse_injective hlist
      have hdig : Nat.digits 10 m = Nat.digits 10 n :=
        map_digitChar_injOn _ _ (fun x hx => Nat.digits_lt_base (by norm_num) hx)
          (fun x hx => Nat.digits_lt_base (by norm_num) hx) hmap
      exact Nat.digits.injective 10 hdig

theorem string_data_inj (s t : String) (h : s.data = t.data) : s = t := by
  cases s
  cases t
  exact congrArg String.mk h

theorem colName_injective : Function.Injective colName := by
  intro a b h
  unfold colName at h
  have hdata := congrArg String.data h
  simp only [String.data_append] at hdata
  have : (natToDec (a + 1)).data = (natToDec (b + 1)).data :=
    List.append_cancel_left hdata
  have heq : natToDec (a + 1) = natToDec (b + 1) := string_data_inj _ _ this
  have := natToDec_injective heq
  omega

theorem colNames_nodup (n : Nat) : (colNames n).Nodup :=
  (List.nodup_range n).map colName_injective

theorem colNames_length (n : Nat) : (colNames n).length = n := by
  simp [colNames]

/-! ## `buildBase` lemmas -/

theorem range_map_pair_eq_zip (f : Nat → String) (r : List String) :
    (List.range r.length).map (fun i => (f i, r.getD i ""))
      = ((List.range r.length).map f).zip r := by
  induction r generalizing f with
  | nil => simp
  | cons a t ih =>
    rw [List.length_cons, List.range_succ_eq_map]
    simp only [List.map_cons, List.map_map, List.zip_cons_cons, List.getD_cons_zero]
    have := ih (fun i => f (i + 1))
    simp only [Function.comp_def, List.getD_cons_succ]
    rw [this]

theorem buildBase_col (headers : List String) (r : List String)
    (h : ¬(headers ≠ [] ∧ r.length = headers.length)) :
    buildBase headers r = (colNames r.length).zip r := by
  unfold buildBase
  rw [if_neg h, range_map_pair_eq_zip colName r]
  apply Dict.ofPairs_eq_self
  have hkeys : Dict.keys (((List.range r.length).map colName).zip r)
      = (List.range r.length).map colName := by
    rw [Dict.keys]
    apply List.map_fst_zip
    simp
  rw [hkeys]
  exact colNames_nodup r.length

theorem buildBase_headers (headers : List String) (r : List String)
    (hne : headers ≠ []) (hlen : r.length = headers.length) (hnd : headers.Nodup) :
    buildBase headers r = headers.zip r := by
  unfold buildBase
  rw [if_pos ⟨hne, hlen⟩]
  apply Dict.ofPairs_eq_self
  have hkeys : Dict.keys (headers.zip r) = headers := by
    rw [Dict.keys]
    apply List.map_fst_zip
    omega
  rw [hkeys]
  exact hnd

/-! ## Table Extractor / `_open_row_detail` correspondence lemmas -/

theorem acceptRow_def (tr : TableRow) :
    acceptRow tr =
      if tr.ths.length > 0 ∧ tr.tds.length = 0 then none
      else if (rowCells tr).length = 0 then none
      else if ((rowCells tr).map safe_text).any (fun c => pyStrip c ≠ "") then
        some ((rowCells tr).map safe_text)
      else none := rfl

theorem acceptRow_eq_some (tr : TableRow) (h : (acceptRow tr).isSome) :
    acceptRow tr = some (rowTexts tr) := by
  rw [acceptRow_def] at h ⊢
  by_cases h1 : tr.ths.length > 0 ∧ tr.tds.length = 0
  · rw [if_pos h1] at h
    simp at h
  · rw [if_neg h1] at h ⊢
    by_cases h2 : (rowCells tr).length = 0
    · rw [if_pos h2] at h
      simp at h
    · rw [if_neg h2] at h ⊢
      by_cases h3 : ((rowCells tr).map safe_text).any (fun c => pyStrip c ≠ "")
      · rw [if_pos h3]
        rfl
      · rw [if_neg h3] at h
        simp at h

theorem filterMap_eq_map_of_some {α β : Type} (f : α → Option β) (g : α → β) :
    ∀ l : List α, (∀ x ∈ l, f x = some (g x)) → l.filterMap f = l.map g
  | [], _ => rfl
  | a :: t, h => by
    rw [List.filterMap_cons, h a (by simp), List.map_cons,
      filterMap_eq_map_of_some f g t (fun x hx => h x (by simp [hx]))]

theorem extractRowsFrom_eq_map (trs : List TableRow)
    (h : ∀ tr ∈ trs, (acceptRow tr).isSome) :
    extractRowsFrom trs = trs.map rowTexts :=
  filterMap_eq_map_of_some acceptRow rowTexts trs
    (fun tr htr => acceptRow_eq_some tr (h tr htr))

theorem extract_eq_map_rowsForOpen (d : PageDom)
    (h : ∀ tr ∈ rowsForOpen d, (acceptRow tr).isSome) :
    _extract_table_rows d = (rowsForOpen d).map rowTexts := by
  unfold _extract_table_rows extractConventions
  by_cases h1 : d.tbodyTrs.length = 0
  · by_cases h2 : d.allTrs.length = 0
    · by_cases h3 : d.roleRows.length = 0
      · have hnil : d.roleRows = [] := List.length_eq_zero.mp h3
        have hfo : rowsForOpen d = d.roleRows := by
          unfold rowsForOpen
          rw [if_neg (by simp [h1]), if_neg (by simp [h2])]
        rw [hfo, hnil]
        simp only [extractLoop]
        rw [if_pos h1, if_pos h2]
        simp
      · have hfo : rowsForOpen d = d.roleRows := by
          unfold rowsForOpen
          rw [if_neg (by simp [h1]), if_neg (by simp [h2])]
        rw [hfo] at h ⊢
        have hmap := extractRowsFrom_eq_map d.roleRows h
        have hne : extractRowsFrom d.roleRows ≠ [] := by
          rw [hmap]
          intro hc
          exact h3 (by simpa using congrArg List.length hc)
        simp only [extractLoop]
        rw [if_pos h1, if_pos h2, if_neg h3, if_neg hne]
        exact hmap
    · have hfo : rowsForOpen d = d.allTrs := by
        unfold rowsForOpen
        rw [if_neg (by simp [h1]), if_pos h2]
      rw [hfo] at h ⊢
      have hmap := extractRowsFrom_eq_map d.allTrs h
      have hne : extractRowsFrom d.allTrs ≠ [] := by
        rw [hmap]
        intro hc
        exact h2 (by simpa using congrArg List.length hc)
      simp only [extractLoop]
      rw [if_pos h1, if_neg h2, if_neg hne]
      exact hmap
  · have hfo : rowsForOpen d = d.tbodyTrs := by
      unfold rowsForOpen
      rw [if_pos h1]
    rw [hfo] at h ⊢
    have hmap := extractRowsFrom_eq_map d.tbodyTrs h
    have hne : extractRowsFrom d.tbodyTrs ≠ [] := by
      rw [hmap]
      intro hc
      exact h1 (by simpa using congrArg List.length hc)
    simp only [extractLoop]
    rw [if_neg h1, if_neg hne]
    exact hmap

theorem getElem?_range_branch (trs : List TableRow) (i : Nat) :
    (if i ≥ trs.length then none else trs[i]?) = trs[i]? := by
  by_cases h : i ≥ trs.length
  · rw [if_pos h]
    exact (List.getElem?_eq_none h).symm
  · rw [if_neg h]

theorem openTarget_eq_rowsForOpen (d : PageDom) (i : Nat) :
    _open_row_detail_target d i = (rowsForOpen d)[i]? := by
  unfold _open_row_detail_target
  by_cases h1 : d.tbodyTrs.length = 0
  · by_cases h2 : d.allTrs.length = 0
    · have hfo : rowsForOpen d = d.roleRows := by
        unfold rowsForOpen
        rw [if_neg (by simp [h1]), if_neg (by simp [h2])]
      rw [hfo]
      by_cases h3 : d.roleRows.length = 0
      · have hnil : d.roleRows = [] := List.length_eq_zero.mp h3
        simp only [openTargetLoop]
        rw [if_pos h1, if_pos h2, if_pos h3, hnil]
        simp
      · simp only [openTargetLoop]
        rw [if_pos h1, if_pos h2, if_neg h3]
        exact getElem?_range_branch d.roleRows i
    · have hfo : rowsForOpen d = d.allTrs := by
        unfold rowsForOpen
        rw [if_neg (by simp [h1]), if_pos h2]
      rw [hfo]
      simp only [openTargetLoop]
      rw [if_pos h1, if_neg h2]
      exact getElem?_range_branch d.allTrs i
  · have hfo : rowsForOpen d = d.tbodyTrs := by
      unfold rowsForOpen
      rw [if_pos h1]
    rw [hfo]
    simp only [openTargetLoop]
    rw [if_neg h1]
    exact getElem?_range_branch d.tbodyTrs i

theorem open_row_out_of_range (d : PageDom) (i : Nat)
    (h : i ≥ (rowsForOpen d).length) :
    _open_row_detail d noOpenFail i = .ok false := by
  unfold _open_row_detail noOpenFail
  by_cases h1 : d.tbodyTrs.length = 0
  · by_cases h2 : d.allTrs.length = 0
    · have hfo : rowsForOpen d = d.roleRows := by
        unfold rowsForOpen
        rw [if_neg (by simp [h1]), if_neg (by simp [h2])]
      rw [hfo] at h
      by_cases h3 : d.roleRows.length = 0
      · simp only [openLoop]
        rw [if_neg Bool.false_ne_true, if_pos h1, if_neg Bool.false_ne_true,
          if_pos h2, if_neg Bool.false_ne_true, if_pos h3]
      · simp only [openLoop]
        rw [if_neg Bool.false_ne_true, if_pos h1, if_neg Bool.false_ne_true,
          if_pos h2, if_neg Bool.false_ne_true, if_neg h3, if_pos h]
    · have hfo : rowsForOpen d = d.allTrs := by
        unfold rowsForOpen
        rw [if_neg (by simp [h1]), if_pos h2]
      rw [hfo] at h
      simp only [openLoop]
      rw [if_neg Bool.false_ne_true, if_pos h1, if_neg Bool.false_ne_true,
        if_neg h2, if_pos h]
  · have hfo : rowsForOpen d = d.tbodyTrs := by
      unfold rowsForOpen
      rw [if_pos h1]
    rw [hfo] at h
    simp only [openLoop]
    rw [if_neg Bool.false_ne_true, if_neg h1, if_pos h]

/-! ## Row-loop equations and invariants -/

theorem processRows_nil (steps : Nat → RowStep) (cap : Nat) (k : Nat)
    (results : List Dict) (fetched : Nat) :
    processRows steps cap [] k results fetched = .cont results fetched := rfl

theorem processRows_cons_capped (steps : Nat → RowStep) (cap : Nat) (base : Dict)
    (rest : List Dict) (k : Nat) (results : List Dict) (fetched : Nat)
    (h : fetched ≥ cap) :
    processRows steps cap (base :: rest) k results fetched = .cont results fetched := by
  simp only [processRows]
  rw [if_pos h]

theorem processRows_cons_openFail (steps : Nat → RowStep) (cap : Nat) (base : Dict)
    (rest : List Dict) (k : Nat) (results : List Dict) (fetched : Nat)
    (h1 : fetched < cap) (h2 : (steps k).openOk = false) :
    processRows steps cap (base :: rest) k results fetched
      = processRows steps cap rest (k + 1) (results ++ [base]) (fetched + 1) := by
  simp only [processRows]
  rw [if_neg (by omega)]
  simp [h2]

theorem processRows_cons_open (steps : Nat → RowStep) (cap : Nat) (base : Dict)
    (rest : List Dict) (k : Nat) (results : List Dict) (fetched : Nat)
    (h1 : fetched < cap) (h2 : (steps k).openOk = true) :
    processRows steps cap (base :: rest) k results fetched
      = (if (steps k).backOk then
          processRows steps cap rest (k + 1)
            (results ++ [Dict.mergePy base (detailsOf (steps k))]) (fetched + 1)
        else if (steps k).recoverOk then
          processRows steps cap rest (k + 1)
            (results ++ [Dict.mergePy base (detailsOf (steps k))]) (fetched + 1)
        else .halt (results ++ [Dict.mergePy base (detailsOf (steps k))]) (fetched + 1)) := by
  simp only [processRows]
  rw [if_neg (by omega)]
  simp [h2]

theorem processRows_invariant (steps : Nat → RowStep) (cap : Nat) :
    ∀ (bases : List Dict) (k : Nat) (results : List Dict) (fetched : Nat),
      fetched ≤ cap →
      fetched ≤ (processRows steps cap bases k results fetched).fetchedOf ∧
      (processRows steps cap bases k results fetched).fetchedOf ≤ cap ∧
      (processRows steps cap bases k results fetched).resultsOf.length
        = results.length + ((processRows steps cap bases k results fetched).fetchedOf - fetched)
  | [], k, results, fetched, hc => by
    rw [processRows_nil]
    simp only [RowsOut.fetchedOf, RowsOut.resultsOf]
    exact ⟨le_refl _, hc, by omega⟩
  | base :: rest, k, results, fetched, hc => by
    by_cases hcap : fetched ≥ cap
    · rw [processRows_cons_capped steps cap base rest k results fetched hcap]
      simp only [RowsOut.fetchedOf, RowsOut.resultsOf]
      exact ⟨le_refl _, hc, by omega⟩
    · have h1 : fetched < cap := by omega
      by_cases hopen : (steps k).openOk = true
      · rw [processRows_cons_open steps cap base rest k results fetched h1 hopen]
        by_cases hback : (steps k).backOk = true
        · rw [if_pos hback]
          have ih := processRows_invariant steps cap rest (k + 1)
            (results ++ [Dict.mergePy base (detailsOf (steps k))]) (fetched + 1)
            (by omega)
          obtain ⟨ih1, ih2, ih3⟩ := ih
          simp only [List.length_append, List.length_singleton] at ih3
          exact ⟨by omega, ih2, by omega⟩
        · rw [if_neg hback]
          by_cases hrec : (steps k).recoverOk = true
          · rw [if_pos hrec]
            have ih := processRows_invariant steps cap rest (k + 1)
              (results ++ [Dict.mergePy base (detailsOf (steps k))]) (fetched + 1)
              (by omega)
            obtain ⟨ih1, ih2, ih3⟩ := ih
            simp only [List.length_append, List.length_singleton] at ih3
            exact ⟨by omega, ih2, by omega⟩
          · rw [if_neg hrec]
            simp only [RowsOut.fetchedOf, RowsOut.resultsOf, List.length_append,
              List.length_singleton]
            exact ⟨by omega, by omega, by omega⟩
      · have hopen' : (steps k).openOk = false := by
          cases hop : (steps k).openOk
          · rfl
          · exact absurd hop hopen
        rw [processRows_cons_openFail steps cap base rest k results fetched h1 hopen']
        have ih := processRows_invariant steps cap rest (k + 1)
          (results ++ [base]) (fetched + 1) (by omega)
        obtain ⟨ih1, ih2, ih3⟩ := ih
        simp only [List.length_append, List.length_singleton] at ih3
        exact ⟨by omega, ih2, by omega⟩

theorem processRows_results_extend (steps : Nat → RowStep) (cap : Nat) :
    ∀ (bases : List Dict) (k : Nat) (results : List Dict) (fetched : Nat),
      ∃ suffix,
        (processRows steps cap bases k results fetched).resultsOf = results ++ suffix
  | [], k, results, fetched => ⟨[], by rw [processRows_nil]; simp [RowsOut.resultsOf]⟩
  | base :: rest, k, results, fetched => by
    by_cases hcap : fetched ≥ cap
    · exact ⟨[], by
        rw [processRows_cons_capped steps cap base rest k results fetched hcap]
        simp [RowsOut.resultsOf]⟩
    · have h1 : fetched < cap := by omega
      by_cases hopen : (steps k).openOk = true
      · rw [processRows_cons_open steps cap base rest k results fetched h1 hopen]
        by_cases hback : (steps k).backOk = true
        · rw [if_pos hback]
          obtain ⟨suf, hsuf⟩ := processRows_results_extend steps cap rest (k + 1)
            (results ++ [Dict.mergePy base (detailsOf (steps k))]) (fetched + 1)
          exact ⟨[Dict.mergePy base (detailsOf (steps k))] ++ suf, by
            rw [hsuf, List.append_assoc]⟩
        · rw [if_neg hback]
          by_cases hrec : (steps k).recoverOk = true
          · rw [if_pos hrec]
            obtain ⟨suf, hsuf⟩ := processRows_results_extend steps cap rest (k + 1)
              (results ++ [Dict.mergePy base (detailsOf (steps k))]) (fetched + 1)
            exact ⟨[Dict.mergePy base (detailsOf (steps k))] ++ suf, by
              rw [hsuf, List.append_assoc]⟩
          · rw [if_neg hrec]
            exact ⟨[Dict.mergePy base (detailsOf (steps k))], rfl⟩
      · have hopen' : (steps k).openOk = false := by
          cases hop : (steps k).openOk
          · rfl
          · exact absurd hop hopen
        rw [processRows_cons_openFail steps cap base rest k results fetched h1 hopen']
        obtain ⟨suf, hsuf⟩ := processRows_results_extend steps cap rest (k + 1)
          (results ++ [base]) (fetched + 1)
        exact ⟨[base] ++ suf, by rw [hsuf, List.append_assoc]⟩

/-! ## Page-loop equations and invariants -/

theorem scrapeLoop_zero (pages : Nat → PageStep) (headers : List String) (cap : Nat)
    (t : Nat) (results : List Dict) (fetched page_index : Nat) :
    scrapeLoop pages headers cap t results fetched page_index 0 = .ok (results, headers) := rfl

theorem scrapeLoop_rows_error (pages : Nat → PageStep) (headers : List String) (cap : Nat)
    (t : Nat) (results : List Dict) (fetched page_index fuel : Nat) (e : Unit)
    (h : (pages t).rows = .error e) :
    scrapeLoop pages headers cap t results fetched page_index (fuel + 1) = .error e := by
  simp only [scrapeLoop]
  rw [h]

theorem scrapeLoop_rows_nil (pages : Nat → PageStep) (headers : List String) (cap : Nat)
    (t : Nat) (results : List Dict) (fetched page_index fuel : Nat)
    (h : (pages t).rows = .ok []) :
    scrapeLoop pages headers cap t results fetched page_index (fuel + 1)
      = .ok (results, headers) := by
  simp only [scrapeLoop]
  rw [h]
  rfl

theorem scrapeLoop_rows_cons (pages : Nat → PageStep) (headers : List String) (cap : Nat)
    (t : Nat) (results : List Dict) (fetched page_index fuel : Nat)
    (rows_2d : List (List String)) (h : (pages t).rows = .ok rows_2d)
    (hne : rows_2d ≠ []) :
    scrapeLoop pages headers cap t results fetched page_index (fuel + 1)
      = (match processRows (pages t).rowStep cap (rows_2d.map (buildBase headers))
            0 results fetched with
        | .halt results' _ => .ok (results', headers)
        | .cont results' fetched' =>
          if fetched' ≥ cap then .ok (results', headers)
          else
            match (pages t).next with
            | .error e => .error e
            | .ok moved =>
              if !moved then .ok (results', headers)
              else scrapeLoop pages headers cap (t + 1) results' fetched'
                (page_index + 1) fuel) := by
  simp only [scrapeLoop]
  rw [h]
  simp [hne]

theorem scrapeLoop_le_cap (pages : Nat → PageStep) (headers : List String) (cap : Nat) :
    ∀ (fuel t : Nat) (results : List Dict) (fetched page_index : Nat),
      fetched ≤ cap → results.length = fetched →
      ∀ rs hs,
        scrapeLoop pages headers cap t results fetched page_index fuel = .ok (rs, hs) →
        rs.length ≤ cap
  | 0, t, results, fetched, page_index, hc, hlen, rs, hs, heq => by
    rw [scrapeLoop_zero] at heq
    simp only [Except.ok.injEq, Prod.mk.injEq] at heq
    rw [← heq.1, hlen]
    exact hc
  | fuel + 1, t, results, fetched, page_index, hc, hlen, rs, hs, heq => by
    cases hrows : (pages t).rows with
    | error e =>
      rw [scrapeLoop_rows_error pages headers cap t results fetched page_index fuel e hrows]
        at heq
      cases heq
    | ok rows_2d =>
      by_cases hnil : rows_2d = []
      · subst hnil
        rw [scrapeLoop_rows_nil pages headers cap t results fetched page_index fuel hrows]
          at heq
        simp only [Except.ok.injEq, Prod.mk.injEq] at heq
        rw [← heq.1, hlen]
        exact hc
      · rw [scrapeLoop_rows_cons pages headers cap t results fetched page_index fuel
          rows_2d hrows hnil] at heq
        have hinv := processRows_invariant (pages t).rowStep cap
          (rows_2d.map (buildBase headers)) 0 results fetched hc
        cases hpr : processRows (pages t).rowStep cap (rows_2d.map (buildBase headers))
            0 results fetched with
        | halt results' f' =>
          rw [hpr] at heq hinv
          dsimp only at heq
          simp only [RowsOut.fetchedOf, RowsOut.resultsOf] at hinv
          simp only [Except.ok.injEq, Prod.mk.injEq] at heq
          rw [← heq.1]
          omega
        | cont results' fetched' =>
          rw [hpr] at heq hinv
          dsimp only at heq
          simp only [RowsOut.fetchedOf, RowsOut.resultsOf] at hinv
          by_cases hcap : fetched' ≥ cap
          · rw [if_pos hcap] at heq
            simp only [Except.ok.injEq, Prod.mk.injEq] at heq
            rw [← heq.1]
            omega
          · rw [if_neg hcap] at heq
            cases hnext : (pages t).next with
            | error e =>
              rw [hnext] at heq
              dsimp only at heq
              cases heq
            | ok moved =>
              rw [hnext] at heq
              dsimp only at heq
              by_cases hmoved : moved = true
              · rw [hmoved] at heq
                simp only [Bool.not_true, Bool.false_eq_true, if_false] at heq
                exact scrapeLoop_le_cap pages headers cap fuel (t + 1) results' fetched'
                  (page_index + 1) (by omega) (by omega) rs hs heq
              · have : moved = false := by
                  cases moved
                  · rfl
                  · exact absurd rfl hmoved
                rw [this] at heq
                simp only [Bool.not_false, if_true] at heq
                simp only [Except.ok.injEq, Prod.mk.injEq] at heq
                rw [← heq.1]
                omega

theorem scrapeLoop_isOk (pages : Nat → PageStep) (headers : List String) (cap : Nat)
    (hp : ∀ t, (∃ v, (pages t).rows = .ok v) ∧ ∃ m, (pages t).next = .ok m) :
    ∀ (fuel t : Nat) (results : List Dict) (fetched page_index : Nat),
      ∃ out, scrapeLoop pages headers cap t results fetched page_index fuel = .ok out
  | 0, t, results, fetched, page_index => ⟨(results, headers), rfl⟩
  | fuel + 1, t, results, fetched, page_index => by
    obtain ⟨⟨v, hv⟩, m, hm⟩ := hp t
    by_cases hnil : v = []
    · subst hnil
      exact ⟨(results, headers),
        scrapeLoop_rows_nil pages headers cap t results fetched page_index fuel hv⟩
    · rw [scrapeLoop_rows_cons pages headers cap t results fetched page_index fuel v hv hnil]
      cases hpr : processRows (pages t).rowStep cap (v.map (buildBase headers))
          0 results fetched with
      | halt results' f' => exact ⟨(results', headers), rfl⟩
      | cont results' fetched' =>
        dsimp only
        by_cases hcap : fetched' ≥ cap
        · rw [if_pos hcap]
          exact ⟨(results', headers), rfl⟩
        · rw [if_neg hcap, hm]
          dsimp only
          by_cases hmoved : m = true
          · rw [hmoved]
            simp only [Bool.not_true, Bool.false_eq_true, if_false]
            exact scrapeLoop_isOk pages headers cap hp fuel (t + 1) results' fetched'
              (page_index + 1)
          · have hmf : m = false := by
              cases m
              · rfl
              · exact absurd rfl hmoved
            rw [hmf]
            exact ⟨(results', headers), rfl⟩

theorem openLoop_all_ok (i : Nat) :
    ∀ l : List (List TableRow × Bool), (∀ p ∈ l, p.2 = false) →
      ∃ b, openLoop i l = .ok b
  | [], _ => ⟨false, rfl⟩
  | (trs, cf) :: rest, h => by
    have hcf : cf = false := h (trs, cf) (by simp)
    subst hcf
    simp only [openLoop]
    rw [if_neg Bool.false_ne_true]
    by_cases h0 : trs.length = 0
    · rw [if_pos h0]
      exact openLoop_all_ok i rest (fun p hp => h p (by simp [hp]))
    · rw [if_neg h0]
      by_cases hi : i ≥ trs.length
      · rw [if_pos hi]
        exact ⟨false, rfl⟩
      · rw [if_neg hi]
        by_cases ha : (trs.getD i default).anchorCountFails = true
        · rw [if_pos ha]
          exact ⟨false, rfl⟩
        · rw [if_neg ha]
          by_cases hb : (trs.getD i default).hasAnchor = true
          · rw [if_pos hb]
            exact ⟨(trs.getD i default).linkClickOk, rfl⟩
          · rw [if_neg hb]
            exact ⟨(trs.getD i default).rowClickOk, rfl⟩

theorem clickNextLoop_all_ok :
    ∀ sels : List NextSel, (∀ s ∈ sels, ∃ n, s.count = .ok n) →
      ∃ b, clickNextLoop sels = .ok b
  | [], _ => ⟨false, rfl⟩
  | s :: rest, h => by
    obtain ⟨n, hn⟩ := h s (by simp)
    simp only [clickNextLoop]
    rw [hn]
    dsimp only
    by_cases h0 : n > 0
    · rw [if_pos h0]
      by_cases hc : s.clickOk = true
      · rw [if_pos hc]
        exact ⟨true, rfl⟩
      · rw [if_neg hc]
        exact clickNextLoop_all_ok rest (fun x hx => h x (by simp [hx]))
    · rw [if_neg h0]
      exact clickNextLoop_all_ok rest (fun x hx => h x (by simp [hx]))

/-! # Claim theorems -/

/-- C3, counterexample.  The claim quantifies over every HeaderSequence,
but for the duplicated (non-blank) header sequence `["A", "A"]` and the
matching-length row `["x", "y"]` the dict comprehension of line 252
collapses the two keys: the BaseRecord is `{"A": "y"}`, its keys are not
`H` in order, and its key-set size is 1, not `len(R) = 2`. -/
theorem C3_counterexample :
    (["A", "A"] : List String).length = (["x", "y"] : List String).length ∧
    buildBase ["A", "A"] ["x", "y"] = [("A", "y")] ∧
    Dict.keys (buildBase ["A", "A"] ["x", "y"]) ≠ ["A", "A"] ∧
    (buildBase ["A", "A"] ["x", "y"]).length ≠ 2 := by
  refine ⟨rfl, by decide, by decide, by decide⟩

/-- C3, amended: provided the header labels are pairwise distinct (which
the counterexample shows is necessary in the matching-length case), the
BaseRecord built from row `R` and headers `H` pairs `H` with `R` in order
when `len(R) = len(H)`, pairs `col_1..col_len(R)` with `R` otherwise, its
keys never repeat, and its key-set size equals `len(R)`. -/
theorem C3_baseRecord_keys (H R : List String) :
    (R.length = H.length → H.Nodup → buildBase H R = H.zip R) ∧
    (R.length ≠ H.length → buildBase H R = (colNames R.length).zip R) ∧
    Dict.NodupKeys (buildBase H R) ∧
    ((R.length = H.length → H.Nodup) → (buildBase H R).length = R.length) := by
  refine ⟨?_, ?_, ?_, ?_⟩
  · intro hlen hnd
    by_cases hne : H = []
    · subst hne
      have hR : R = [] := List.length_eq_zero.mp (by simpa using hlen)
      subst hR
      rfl
    · exact buildBase_headers H R hne hlen hnd
  · intro hlen
    exact buildBase_col H R (fun hc => hlen hc.2)
  · unfold buildBase
    by_cases hc : H ≠ [] ∧ R.length = H.length
    · rw [if_pos hc]
      exact Dict.nodupKeys_ofPairs _
    · rw [if_neg hc]
      exact Dict.nodupKeys_ofPairs _
  · intro himp
    by_cases hlen : R.length = H.length
    · by_cases hne : H = []
      · subst hne
        have hR : R = [] := List.length_eq_zero.mp (by simpa using hlen)
        subst hR
        rfl
      · rw [buildBase_headers H R hne hlen (himp hlen)]
        rw [List.length_zip]
        omega
    · rw [buildBase_col H R (fun hc => hlen hc.2)]
      rw [List.length_zip, colNames_length]
      omega

/-- C3, witness: the amended theorem applied at headers `["A", "B"]` and
row `["x", "y"]`. -/
theorem C3_baseRecord_keys_witness :
    ((["x", "y"] : List String).length = (["A", "B"] : List String).length →
      (["A", "B"] : List String).Nodup →
      buildBase ["A", "B"] ["x", "y"] = (["A", "B"] : List String).zip ["x", "y"]) ∧
    ((["x", "y"] : List String).length ≠ (["A", "B"] : List String).length →
      buildBase ["A", "B"] ["x", "y"]
        = (colNames (["x", "y"] : List String).length).zip ["x", "y"]) ∧
    Dict.NodupKeys (buildBase ["A", "B"] ["x", "y"]) ∧
    (((["x", "y"] : List String).length = (["A", "B"] : List String).length →
      (["A", "B"] : List String).Nodup) →
      (buildBase ["A", "B"] ["x", "y"]).length = (["x", "y"] : List String).length) :=
  C3_baseRecord_keys ["A", "B"] ["x", "y"]

/-- C4: in `{**base, **details}` (line 273) every key of the DetailRecord
maps to the detail value, every key of the BaseRecord absent from the
DetailRecord keeps the base value, and no other key occurs. -/
theorem C4_merge_detail_wins (B D : Dict) (hD : Dict.NodupKeys D) :
    (∀ k, k ∈ Dict.keys D → Dict.find? (Dict.mergePy B D) k = Dict.find? D k) ∧
    (∀ k, k ∈ Dict.keys B → k ∉ Dict.keys D →
      Dict.find? (Dict.mergePy B D) k = Dict.find? B k) ∧
    (∀ k, k ∈ Dict.keys (Dict.mergePy B D) → k ∈ Dict.keys B ∨ k ∈ Dict.keys D) :=
  ⟨fun k hk => Dict.find?_mergePy_mem B D k hD hk,
   fun k _ hkD => Dict.find?_mergePy_not_mem B D k hkD,
   fun k hk => Dict.mem_keys_mergePy B D k hk⟩

/-- C4, witness: the merge theorem applied at the scenario base
`{"Name": "ACME", "Status": "Active"}` and details
`{"Status": "X", "Entity": "C1"}`. -/
theorem C4_merge_detail_wins_witness :
    (∀ k, k ∈ Dict.keys [("Status", "X"), ("Entity", "C1")] →
      Dict.find? (Dict.mergePy [("Name", "ACME"), ("Status", "Active")]
        [("Status", "X"), ("Entity", "C1")]) k
        = Dict.find? [("Status", "X"), ("Entity", "C1")] k) ∧
    (∀ k, k ∈ Dict.keys [("Name", "ACME"), ("Status", "Active")] →
      k ∉ Dict.keys [("Status", "X"), ("Entity", "C1")] →
      Dict.find? (Dict.mergePy [("Name", "ACME"), ("Status", "Active")]
        [("Status", "X"), ("Entity", "C1")]) k
        = Dict.find? [("Name", "ACME"), ("Status", "Active")] k) ∧
    (∀ k, k ∈ Dict.keys (Dict.mergePy [("Name", "ACME"), ("Status", "Active")]
        [("Status", "X"), ("Entity", "C1")]) →
      k ∈ Dict.keys [("Name", "ACME"), ("Status", "Active")] ∨
      k ∈ Dict.keys [("Status", "X"), ("Entity", "C1")]) :=
  C4_merge_detail_wins [("Name", "ACME"), ("Status", "Active")]
    [("Status", "X"), ("Entity", "C1")]
    (by decide : (Dict.keys [("Status", "X"), ("Entity", "C1")]).Nodup)

/-- C5: `_collect_detail_fields` returns exactly the pairs of the first
strategy, in the order 1 → 2 → 3, that yields at least one pair, strategy
1 being tried only when there are terms and at least as many definitions
as terms; pairs of different strategies are never combined. -/
theorem C5_first_strategy_wins (d : PageDom) :
    _collect_detail_fields d =
      if d.dts.length > 0 ∧ d.dds.length ≥ d.dts.length ∧ detailStrategy1 d ≠ [] then
        detailStrategy1 d
      else if detailStrategy2 d ≠ [] then detailStrategy2 d
      else detailStrategy3 d := by
  unfold _collect_detail_fields
  dsimp only
  simp only [detailStrategy2, detailStrategy3]
  by_cases h1 : d.dts.length > 0 ∧ d.dds.length ≥ d.dts.length
  · rw [if_pos h1]
    by_cases h2 : detailStrategy1 d = []
    · rw [h2]
      have e0 : (if ([] : Dict) = [] then detailStrategy2From d [] else [])
          = detailStrategy2From d [] := if_pos rfl
      rw [e0]
      have hno : ¬(d.dts.length > 0 ∧ d.dds.length ≥ d.dts.length ∧ ([] : Dict) ≠ []) :=
        fun hc => hc.2.2 rfl
      rw [if_neg hno]
      have hne' : ¬(([] : Dict) ≠ []) := fun hc => hc rfl
      by_cases h3 : detailStrategy2From d [] = []
      · rw [if_pos h3, h3, if_neg hne']
      · rw [if_neg h3, if_pos h3]
    · have e1 : (if detailStrategy1 d = [] then detailStrategy2From d (detailStrategy1 d)
          else detailStrategy1 d) = detailStrategy1 d := if_neg h2
      rw [e1, if_neg h2, if_pos ⟨h1.1, h1.2, h2⟩]
  · rw [if_neg h1]
    have e0 : (if ([] : Dict) = [] then detailStrategy2From d [] else [])
        = detailStrategy2From d [] := if_pos rfl
    rw [e0]
    have hno : ¬(d.dts.length > 0 ∧ d.dds.length ≥ d.dts.length ∧ detailStrategy1 d ≠ []) :=
      fun hc => h1 ⟨hc.1, hc.2.1⟩
    rw [if_neg hno]
    have hne' : ¬(([] : Dict) ≠ []) := fun hc => hc rfl
    by_cases h3 : detailStrategy2From d [] = []
    · rw [if_pos h3, h3, if_neg hne']
    · rw [if_neg h3, if_pos h3]

/-- C6: when a row's detail-open attempt fails (a `False` return or any
raise, including the `expect_navigation` timeout), lines 264-267 append
the BaseRecord unmodified, increment `fetched` by exactly one, and
continue with the next row of the same page. -/
theorem C6_open_fail_keeps_base (steps : Nat → RowStep) (cap : Nat) (base : Dict)
    (rest : List Dict) (k : Nat) (results : List Dict) (fetched : Nat)
    (hcap : fetched < cap) (hopen : (steps k).openOk = false) :
    processRows steps cap (base :: rest) k results fetched
      = processRows steps cap rest (k + 1) (results ++ [base]) (fetched + 1) :=
  processRows_cons_openFail steps cap base rest k results fetched hcap hopen

/-- C6, witness: one row whose open fails, record cap 2. -/
theorem C6_open_fail_keeps_base_witness :
    processRows (fun _ => ⟨false, .ok [], true, true⟩) 2 [[("a", "1")]] 0 [] 0
      = processRows (fun _ => ⟨false, .ok [], true, true⟩) 2 [] 1 [[("a", "1")]] 1 :=
  C6_open_fail_keeps_base (fun _ => ⟨false, .ok [], true, true⟩) 2 [("a", "1")] [] 0 [] 0
    (by decide) rfl

theorem scrape_ok_elim (b : Behaviour) (cap fuel : Nat) (rs : List Dict)
    (hs : List String) (heq : scrape_businesses b cap fuel = .ok (rs, hs)) :
    scrapeLoop b.pages b.headers cap 0 [] 0 1 fuel = .ok (rs, hs) := by
  unfold scrape_businesses at heq
  cases hL : b.launchOk with
  | false =>
    rw [hL] at heq
    simp at heq
  | true =>
    rw [hL] at heq
    cases hC : b.closeOk with
    | false =>
      rw [hC] at heq
      simp at heq
    | true =>
      rw [hC] at heq
      cases hN : b.newPageOk with
      | false =>
        rw [hN] at heq
        simp at heq
      | true =>
        rw [hN] at heq
        cases hG : b.gotoOk with
        | false =>
          rw [hG] at heq
          simp at heq
        | true =>
          rw [hG] at heq
          cases hS : b.searchOk with
          | false =>
            rw [hS] at heq
            simp at heq
          | true =>
            rw [hS] at heq
            simpa using heq

/-- C1, counterexample.  The claim says `scrape_businesses` never
propagates an exception for any provider behaviour, but the initial
`page.goto` of line 224 is not guarded by any `try`: in the behaviour in
which that single call raises (for example a navigation timeout) and every
other call succeeds, the operation terminates with the exception — which
is why the HTTP layer in `main.py` wraps the call in its own
`try/except`. -/
theorem C1_counterexample :
    scrape_businesses gotoFailBehaviour 5 3 = .error () := rfl

/-- C1, amended: for every input, record cap and fuel, and for every
provider behaviour in which the calls the source leaves unguarded succeed
— browser launch, page creation, the initial `goto`, the count query of
the initial search submit, every `_extract_table_rows` call, every
`_click_next` call, and the final context/browser close —
`scrape_businesses` returns normally with a record sequence plus the
header sequence, whatever the outcomes of all guarded calls (detail
opens, detail collection, back-navigation, recovery). -/
theorem C1_no_raise_when_unguarded_ok (b : Behaviour) (cap fuel : Nat)
    (hLaunch : b.launchOk = true) (hNew : b.newPageOk = true)
    (hGoto : b.gotoOk = true) (hSearch : b.searchOk = true)
    (hClose : b.closeOk = true)
    (hPages : ∀ t, (∃ v, (b.pages t).rows = .ok v) ∧ ∃ m, (b.pages t).next = .ok m) :
    ∃ out, scrape_businesses b cap fuel = .ok out := by
  unfold scrape_businesses
  rw [hLaunch, hNew, hGoto, hSearch, hClose]
  simp only [Bool.not_true, Bool.false_eq_true, if_false, if_true]
  exact scrapeLoop_isOk b.pages b.headers cap hPages fuel 0 [] 0 1

/-- C1, witness: the amended theorem at the all-successful behaviour. -/
theorem C1_no_raise_when_unguarded_ok_witness :
    ∃ out, scrape_businesses okBehaviour 2 3 = .ok out :=
  C1_no_raise_when_unguarded_ok okBehaviour 2 3 rfl rfl rfl rfl rfl
    (fun _ => ⟨⟨[], rfl⟩, false, rfl⟩)

/-- C2: within the row loop, `fetched` never decreases, never exceeds the
record cap, and each unit of growth corresponds to exactly one appended
record; consequently a normally-returning session yields at most
`max_records` ResultRecords. -/
theorem C2_fetched_bounded (steps : Nat → RowStep) (cap : Nat) (bases : List Dict)
    (k : Nat) (results : List Dict) (fetched : Nat) (b : Behaviour) (fuel : Nat)
    (rs : List Dict) (hs : List String) (hc : fetched ≤ cap) :
    (fetched ≤ (processRows steps cap bases k results fetched).fetchedOf ∧
      (processRows steps cap bases k results fetched).fetchedOf ≤ cap ∧
      (processRows steps cap bases k results fetched).resultsOf.length
        = results.length
          + ((processRows steps cap bases k results fetched).fetchedOf - fetched)) ∧
    (scrape_businesses b cap fuel = .ok (rs, hs) → rs.length ≤ cap) := by
  constructor
  · exact processRows_invariant steps cap bases k results fetched hc
  · intro heq
    exact scrapeLoop_le_cap b.pages b.headers cap fuel 0 [] 0 1 (Nat.zero_le cap) rfl
      rs hs (scrape_ok_elim b cap fuel rs hs heq)

/-- C2, witness: the invariant at an empty page with cap 2, and the bound
at the all-successful behaviour (which returns the empty record list). -/
theorem C2_fetched_bounded_witness :
    ((0 ≤ (processRows (fun _ => trivialRowStep) 2 [] 0 [] 0).fetchedOf ∧
      (processRows (fun _ => trivialRowStep) 2 [] 0 [] 0).fetchedOf ≤ 2 ∧
      (processRows (fun _ => trivialRowStep) 2 [] 0 [] 0).resultsOf.length
        = ([] : List Dict).length
          + ((processRows (fun _ => trivialRowStep) 2 [] 0 [] 0).fetchedOf - 0)) ∧
    (scrape_businesses okBehaviour 2 1 = .ok ([], []) → ([] : List Dict).length ≤ 2)) :=
  C2_fetched_bounded (fun _ => trivialRowStep) 2 [] 0 [] 0 okBehaviour 1 [] []
    (by decide)

/-- C7, counterexample.  Each navigation action catches only its fill,
click and key-press failures; the locator `count()` queries of
`_click_search` (line 101), `_open_row_detail` (line 178) and
`_click_next` (line 205) are unguarded, so a provider failure there
propagates to the caller as an exception — and `_click_search` returns
`None`, not a boolean flag, in all cases. -/
theorem C7_counterexample :
    _click_search ⟨.error (), true, true, true, true, true, true, true⟩ = .error () ∧
    _open_row_detail default ⟨true, false, false⟩ 0 = .error () ∧
    _click_next [⟨.error (), true⟩] true = .error () :=
  ⟨rfl, rfl, rfl⟩

/-- C7, amended: provided the unguarded locator count queries succeed,
each navigation action returns normally for every outcome of its guarded
fill/click/press calls — `_open_row_detail` and `_click_next` with a
boolean success flag, `_click_search` with `None` (the source gives it no
flag). -/
theorem C7_actions_no_raise (oS : SearchOracle) (d : PageDom) (oO : OpenOracle)
    (i : Nat) (sels : List NextSel) (pd : Bool)
    (hS : ∃ n, oS.inputsCount = .ok n)
    (hO1 : oO.tbodyCountFails = false) (hO2 : oO.allCountFails = false)
    (hO3 : oO.roleCountFails = false)
    (hN : ∀ s ∈ sels, ∃ n, s.count = .ok n) :
    _click_search oS = .ok () ∧
    (∃ b, _open_row_detail d oO i = .ok b) ∧
    (∃ b, _click_next sels pd = .ok b) := by
  refine ⟨?_, ?_, ?_⟩
  · obtain ⟨n, hn⟩ := hS
    unfold _click_search
    rw [hn]
  · unfold _open_row_detail
    apply openLoop_all_ok
    intro p hp
    simp only [List.mem_cons, List.not_mem_nil, or_false] at hp
    rcases hp with h | h | h
    · rw [h]
      exact hO1
    · rw [h]
      exact hO2
    · rw [h]
      exact hO3
  · unfold _click_next
    exact clickNextLoop_all_ok sels hN

/-- C7, witness: the amended theorem at a page with one matching search
input, no failing count query, and an empty pagination selector list. -/
theorem C7_actions_no_raise_witness :
    _click_search ⟨.ok 1, true, true, true, true, true, true, true⟩ = .ok () ∧
    (∃ b, _open_row_detail default noOpenFail 0 = .ok b) ∧
    (∃ b, _click_next [] true = .ok b) :=
  C7_actions_no_raise ⟨.ok 1, true, true, true, true, true, true, true⟩ default
    noOpenFail 0 [] true ⟨1, rfl⟩ rfl rfl rfl
    (fun s hs => absurd hs (List.not_mem_nil s))

/-- C8, counterexample.  On a page whose first `tbody` row is all-blank,
the extractor discards that row, so the 0-th extracted Row (`["x"]`) is
built from the second `tr`; but `_open_row_detail` at index 0 indexes the
raw row list, targets (and successfully clicks) the discarded blank first
row — a different row from the one the 0-th BaseRecord came from. -/
theorem C8_counterexample :
    acceptRow blankRow = none ∧
    acceptRow goodRow = some ["x"] ∧
    _extract_table_rows dEx = [["x"]] ∧
    _open_row_detail_target dEx 0 = some blankRow ∧
    _open_row_detail dEx noOpenFail 0 = .ok true ∧
    rowTexts blankRow ≠ ["x"] :=
  ⟨rfl, rfl, rfl, rfl, rfl, by decide⟩

/-- C8, amended: `_open_row_detail` indexes the raw rows of the first
convention that matches anything; when every row of that convention is
accepted by the extractor, the row targeted at index `i` is exactly the
row the `i`-th extracted Row was built from, and the action returns
`false` whenever `i` is at least that convention's row count. -/
theorem C8_open_targets_raw_index (d : PageDom) (i : Nat)
    (hacc : ∀ tr ∈ rowsForOpen d, (acceptRow tr).isSome) :
    (∀ h : i < (rowsForOpen d).length,
      _open_row_detail_target d i = some ((rowsForOpen d).get ⟨i, h⟩) ∧
      (_extract_table_rows d)[i]? = some (rowTexts ((rowsForOpen d).get ⟨i, h⟩))) ∧
    ((rowsForOpen d).length ≤ i → _open_row_detail d noOpenFail i = .ok false) := by
  constructor
  · intro h
    constructor
    · rw [openTarget_eq_rowsForOpen d i]
      rw [List.getElem?_eq_getElem h]
      simp [List.get_eq_getElem]
    · rw [extract_eq_map_rowsForOpen d hacc]
      rw [List.getElem?_map, List.getElem?_eq_getElem h]
      simp [List.get_eq_getElem]
  · intro h
    exact open_row_out_of_range d i h

/-- C8, witness: the amended theorem on a page whose single `tbody` row is
accepted. -/
theorem C8_open_targets_raw_index_witness :
    ((∀ h : 0 < (rowsForOpen dGoodOnly).length,
      _open_row_detail_target dGoodOnly 0 = some ((rowsForOpen dGoodOnly).get ⟨0, h⟩) ∧
      (_extract_table_rows dGoodOnly)[0]?
        = some (rowTexts ((rowsForOpen dGoodOnly).get ⟨0, h⟩))) ∧
    ((rowsForOpen dGoodOnly).length ≤ 0 →
      _open_row_detail dGoodOnly noOpenFail 0 = .ok false)) :=
  C8_open_targets_raw_index dGoodOnly 0 (by decide)

/-- C9: when `_extract_table_rows` yields no rows, the page loop breaks at
lines 247-248 and the session returns normally with exactly the records
accumulated so far plus the headers. -/
theorem C9_empty_extraction_terminates (pages : Nat → PageStep) (headers : List String)
    (cap t : Nat) (results : List Dict) (fetched page_index fuel : Nat)
    (h : (pages t).rows = .ok []) :
    scrapeLoop pages headers cap t results fetched page_index (fuel + 1)
      = .ok (results, headers) :=
  scrapeLoop_rows_nil pages headers cap t results fetched page_index fuel h

/-- C9, witness: a session state with one already-accumulated record hits
an empty page and returns it unchanged. -/
theorem C9_empty_extraction_terminates_witness :
    scrapeLoop (fun _ => trivialPage) ["H"] 5 0 [[("a", "1")]] 1 1 1
      = .ok ([[("a", "1")]], ["H"]) :=
  C9_empty_extraction_terminates (fun _ => trivialPage) ["H"] 5 0 [[("a", "1")]] 1 1 0 rfl

/-- C10: when a row's detail-open succeeds, back-navigation fails and the
recovery sequence succeeds, the loop continues with the next index of the
same already-built BaseRecord list — rows are not re-extracted — having
appended only that row's merged record; and in every case the row loop
only ever extends the existing result accumulator (already-appended
ResultRecords remain unchanged). -/
theorem C10_resync_preserves_iteration (steps : Nat → RowStep) (cap : Nat) (base : Dict)
    (rest : List Dict) (k : Nat) (results : List Dict) (fetched : Nat)
    (hcap : fetched < cap) (hopen : (steps k).openOk = true)
    (hback : (steps k).backOk = false) (hrec : (steps k).recoverOk = true) :
    processRows steps cap (base :: rest) k results fetched
      = processRows steps cap rest (k + 1)
          (results ++ [Dict.mergePy base (detailsOf (steps k))]) (fetched + 1) ∧
    (∀ (bases : List Dict) (j : Nat) (res : List Dict) (f : Nat),
      ∃ suffix, (processRows steps cap bases j res f).resultsOf = res ++ suffix) := by
  constructor
  · rw [processRows_cons_open steps cap base rest k results fetched hcap hopen]
    have hb : ¬((steps k).backOk = true) := by
      rw [hback]
      exact Bool.false_ne_true
    rw [if_neg hb, if_pos hrec]
  · exact fun bases j res f => processRows_results_extend steps cap bases j res f

/-- C10, witness: one row whose back-navigation fails and whose recovery
succeeds, with cap 2. -/
theorem C10_resync_preserves_iteration_witness :
    (processRows (fun _ => recoveredRowStep) 2 [[("a", "1")]] 0 [] 0
      = processRows (fun _ => recoveredRowStep) 2 [] 1
          ([] ++ [Dict.mergePy [("a", "1")] (detailsOf recoveredRowStep)]) 1) ∧
    (∀ (bases : List Dict) (j : Nat) (res : List Dict) (f : Nat),
      ∃ suffix, (processRows (fun _ => recoveredRowStep) 2 bases j res f).resultsOf
        = res ++ suffix) :=
  C10_resync_preserves_iteration (fun _ => recoveredRowStep) 2 [("a", "1")] [] 0 [] 0
    (by decide) rfl rfl rfl

end CaBiz
